import Mathlib

/-!
Shallow embedding of the train-sim simulation core (`src/model.py`).

Python lists are embedded as `List`, the position tuples as `Int × Int`,
the ordered dictionaries (`sensor_states`, `train_positions`) as
association lists; the key of `train_positions` is a `Train` object
compared by identity in the source, so a train is identified here by its
index in the list.  Python float arithmetic on `_speed` is embedded as
`ℚ`.  A Python exception (uncaught `IndexError`, `KeyError`,
`AttributeError`) is embedded as `none` of an `Option`-returning
function.  `Cell`, `CellType`, `Direction`, `DirectionUtils`
(`core.data`), `ArrayUtils.push_first` (`core.util`) and
`MapParser.build_map` (`core.map_parser`) are not present under `src/`;
they are modelled from the spec where needed, each marked
`Modelled from the spec:` in its doc comment.
-/

namespace TrainSim

/-- Train status enumeration (`TrainStates` in `model.py`). -/
inductive TrainStates where
  | OK
  | CRASHED
deriving DecidableEq, Repr

/-- Modelled from the spec: the heading type from the missing `core.data`
module; the spec's Direction Geometry uses a fixed finite set of
compass-like directions, four-way here. -/
inductive Direction where
  | UP
  | DOWN
  | LEFT
  | RIGHT
deriving DecidableEq, Repr

/-- Modelled from the spec: the cell-type enumeration from the missing
`core.data` module (empty/untraversable, track, switch-left,
switch-right, sensor). -/
inductive CellType where
  | EMPTY
  | TRACK
  | SWITCH_LEFT
  | SWITCH_RIGHT
  | SENSOR
deriving DecidableEq, Repr

/-- Modelled from the spec: a grid cell of the missing `core.data`
module, carrying a `CellType` and the set of headings permitted while
occupying it (`_allowed_turns` in the source). -/
structure Cell where
  cell_type : CellType
  allowed_turns : List Direction
deriving DecidableEq, Repr

/-- Modelled from the spec: `DirectionUtils.DIR_TO_COORDINATE`, the
heading-to-coordinate-delta table (`delta_of`); grid y grows downward. -/
def DIR_TO_COORDINATE : Direction → Int × Int
  | Direction.UP => (0, -1)
  | Direction.DOWN => (0, 1)
  | Direction.LEFT => (-1, 0)
  | Direction.RIGHT => (1, 0)

/-- Modelled from the spec: `DirectionUtils.COORDINATE_TO_DIR`, the
inverse delta-to-heading mapping (`heading_of`); a Python dict, so a
missing key raises `KeyError`, embedded as `none`. -/
def COORDINATE_TO_DIR (d : Int × Int) : Option Direction :=
  if d = (0, -1) then some Direction.UP
  else if d = (0, 1) then some Direction.DOWN
  else if d = (-1, 0) then some Direction.LEFT
  else if d = (1, 0) then some Direction.RIGHT
  else none

/-- Modelled from the spec: `DirectionUtils.ALLOWED_TURNS`
(`turns_from`), the headings reachable by turning from a heading: on a
four-way grid, the two perpendicular headings. -/
def ALLOWED_TURNS : Direction → List Direction
  | Direction.UP => [Direction.LEFT, Direction.RIGHT]
  | Direction.DOWN => [Direction.LEFT, Direction.RIGHT]
  | Direction.LEFT => [Direction.UP, Direction.DOWN]
  | Direction.RIGHT => [Direction.UP, Direction.DOWN]

/-- `Train._DEACCELERATION` (0.1 in the source). -/
def DEACCELERATION : ℚ := 1 / 10

/-- `Train._ACCELERATION` (0.2 in the source). -/
def ACCELERATION : ℚ := 1 / 5

/-- `Train._MAX_SPEED` (5 in the source). -/
def MAX_SPEED : ℚ := 5

/-- `Train._LENGTH` (5 in the source). -/
def LENGTH : Nat := 5

/-- The mutable per-train state of class `Train`: `state`,
`is_accelerating`, `_speed` and `direction`. -/
structure Train where
  state : TrainStates
  is_accelerating : Bool
  speed : ℚ
  direction : Direction
deriving DecidableEq, Repr

/-- `Train.accelerate_tick`: add `_ACCELERATION` when accelerating,
otherwise subtract `_DEACCELERATION`, then clamp into
`[0, _MAX_SPEED]`. -/
def accelerate_tick (t : Train) : Train :=
  let s := if t.is_accelerating then t.speed + ACCELERATION else t.speed - DEACCELERATION
  { t with speed := max (min s MAX_SPEED) 0 }

/-- `Train.get_rounded_speed`: Python `int(self._speed)`, truncation
toward zero. -/
def get_rounded_speed (t : Train) : Int :=
  if t.speed < 0 then ⌈t.speed⌉ else ⌊t.speed⌋

/-- Python list subscript `xs[i]`: a negative index wraps once from the
end; an index out of range raises `IndexError`, embedded as `none`. -/
def pyGet {α : Type} (xs : List α) (i : Int) : Option α :=
  let j := if i < 0 then i + xs.length else i
  if h : 0 ≤ j ∧ j.toNat < xs.length then some (xs.get ⟨j.toNat, h.2⟩) else none

/-- The double subscript `self._matrix[y][x]` used throughout the
model. -/
def matrixCell (matrix : List (List Cell)) (x y : Int) : Option Cell :=
  (pyGet matrix y).bind (fun row => pyGet row x)

/-- The whole mutable state of class `Model`: the grid, the sensor
registry (an insertion-ordered dict), the global acceleration flag and
`train_positions` (a dict keyed by `Train` identity, embedded as a list
whose index is the train's identity). -/
structure Model where
  matrix : List (List Cell)
  sensor_states : List ((Int × Int) × Bool)
  is_accelerating : Bool
  trains : List (Train × List (Int × Int))
deriving DecidableEq, Repr

/-- Python dict assignment `d[k] = v`: overwrite an existing key in
place, otherwise append the new key at the end. -/
def dictSet (d : List ((Int × Int) × Bool)) (k : Int × Int) (v : Bool) :
    List ((Int × Int) × Bool) :=
  if d.any (fun e => decide (e.1 = k)) then
    d.map (fun e => if e.1 = k then (k, v) else e)
  else d ++ [(k, v)]

/-- Python dict lookup `d[k]` as an `Option` (keys are unique, first
match). -/
def dictLookup (d : List ((Int × Int) × Bool)) (k : Int × Int) : Option Bool :=
  match d with
  | [] => none
  | e :: rest => if e.1 = k then some e.2 else dictLookup rest k

/-- The keys of the embedded dict, in insertion order. -/
def dictKeys (d : List ((Int × Int) × Bool)) : List (Int × Int) :=
  d.map (fun e => e.1)

/-- `Model.get_cells_train`: the first train (in dict order, i.e. by
index) one of whose body positions equals `(x, y)`. -/
def get_cells_train (trains : List (Train × List (Int × Int))) (x y : Int) : Option Nat :=
  match trains with
  | [] => none
  | tp :: rest =>
    if tp.2.any (fun p => decide (p = (x, y))) then some 0
    else (get_cells_train rest x y).map (fun j => j + 1)

/-- `Model._get_cells_sensor`: the cell at `(x, y)` if it is a sensor,
else `None`; the `IndexError` of the subscript is caught and becomes
`None` (a negative index still wraps, uncaught). -/
def get_cells_sensor (matrix : List (List Cell)) (x y : Int) : Option Cell :=
  match matrixCell matrix x y with
  | some cell => if cell.cell_type = CellType.SENSOR then some cell else none
  | none => none

/-- The reset loop of `Model._update_sensor_states`: every registry
value becomes `False`. -/
def reset_sensors (d : List ((Int × Int) × Bool)) : List ((Int × Int) × Bool) :=
  d.map (fun e => (e.1, false))

/-- The update loop of `Model._update_sensor_states` over one train's
positions: each position lying on a sensor cell is written `True`. -/
def mark_positions (matrix : List (List Cell)) (d : List ((Int × Int) × Bool))
    (ps : List (Int × Int)) : List ((Int × Int) × Bool) :=
  ps.foldl (fun d p => if (get_cells_sensor matrix p.1 p.2).isSome then dictSet d p true else d) d

/-- `Model._update_sensor_states`: reset every entry to `False`, then
mark every train body position that lies on a sensor cell. -/
def update_sensor_states (m : Model) : Model :=
  { m with sensor_states :=
      (m.trains.foldl (fun d tp => mark_positions m.matrix d tp.2)
        (reset_sensors m.sensor_states)) }

/-- The traversable cell types accepted by `Model._move_train_one_cell`. -/
def TRAVERSABLE : List CellType :=
  [CellType.TRACK, CellType.SWITCH_LEFT, CellType.SWITCH_RIGHT, CellType.SENSOR]

/-- The candidate headings of `Model._move_train_one_cell`: the train's
current direction, then the turns allowed from it, filtered to those
present in the current cell's `_allowed_turns` (order preserved). -/
def candidate_dirs (cell : Cell) (t : Train) : List Direction :=
  (t.direction :: ALLOWED_TURNS t.direction).filter
    (fun d => decide (d ∈ cell.allowed_turns))

/-- The candidate loop of `Model._move_train_one_cell`: try each heading
in order; skip a target out of the `len(matrix[0]) × len(matrix)` bounds;
accept the first in-bounds target whose cell type is traversable.
`Except.error` is the uncaught `IndexError` of the target subscript on a
ragged row; `Except.ok none` means the loop exhausted all candidates. -/
def find_next (matrix : List (List Cell)) (width : Nat) (head : Int × Int) :
    List Direction → Except Unit (Option (Int × Int))
  | [] => Except.ok none
  | d :: rest =>
    let nx := head.1 + (DIR_TO_COORDINATE d).1
    let ny := head.2 + (DIR_TO_COORDINATE d).2
    if nx < 0 ∨ (width : Int) ≤ nx ∨ ny < 0 ∨ (matrix.length : Int) ≤ ny then
      find_next matrix width head rest
    else
      match matrixCell matrix nx ny with
      | none => Except.error ()
      | some cell =>
        if cell.cell_type ∈ TRAVERSABLE then Except.ok (some (nx, ny))
        else find_next matrix width head rest

/-- Modelled from the spec: `ArrayUtils.push_first` from the missing
`core.util` module; per the spec's move step it inserts the new
coordinate at the front of the body sequence and removes the last
element, preserving body length. -/
def push_first (xs : List (Int × Int)) (x : Int × Int) : List (Int × Int) :=
  (x :: xs).dropLast

/-- `Model._move_train_one_cell`: read the head and its cell, filter the
candidate headings, accept the first valid target (pushing it onto the
body and recomputing the direction from the coordinate delta), and on no
valid target set the train's state to `CRASHED` leaving the body
untouched.  `none` is an uncaught exception (`IndexError` on an empty
body, on the unguarded head subscript or inside the loop; `KeyError` on
`COORDINATE_TO_DIR`). -/
def move_train_one_cell (matrix : List (List Cell)) (t : Train)
    (ps : List (Int × Int)) : Option (Train × List (Int × Int)) :=
  match pyGet ps 0 with
  | none => none
  | some head =>
    match matrixCell matrix head.1 head.2 with
    | none => none
    | some current_cell =>
      match pyGet matrix 0 with
      | none => none
      | some row0 =>
        match find_next matrix row0.length head (candidate_dirs current_cell t) with
        | Except.error () => none
        | Except.ok none => some ({ t with state := TrainStates.CRASHED }, ps)
        | Except.ok (some tgt) =>
          match COORDINATE_TO_DIR (tgt.1 - head.1, tgt.2 - head.2) with
          | none => none
          | some new_dir => some ({ t with direction := new_dir }, push_first ps tgt)

/-- The sub-move loop of `Model._move_train_tick`: `get_rounded_speed`
invocations of the one-cell move, the count fixed before the loop. -/
def iterate_moves (matrix : List (List Cell)) :
    Nat → Train → List (Int × Int) → Option (Train × List (Int × Int))
  | 0, t, ps => some (t, ps)
  | n + 1, t, ps =>
    match move_train_one_cell matrix t ps with
    | none => none
    | some (t2, ps2) => iterate_moves matrix n t2 ps2

/-- `Model._move_train_tick` without its trailing
`_update_sensor_states` call: the sub-moves, then copying the world
acceleration flag into the train, then `accelerate_tick`. -/
def move_train_tick (matrix : List (List Cell)) (acc : Bool) (t : Train)
    (ps : List (Int × Int)) : Option (Train × List (Int × Int)) :=
  match iterate_moves matrix (get_rounded_speed t).toNat t ps with
  | none => none
  | some (t2, ps2) => some (accelerate_tick { t2 with is_accelerating := acc }, ps2)

/-- One body position that `Model._check_collisions` flags: its first
owner by dict order is a different train. -/
def cross_overlap (trains : List (Train × List (Int × Int))) (i : Nat)
    (ps : List (Int × Int)) : Bool :=
  ps.any (fun p =>
    match get_cells_train trains p.1 p.2 with
    | none => false
    | some j => decide (j ≠ i))

/-- `Model._check_collisions`: scan every train's every position for an
overlap with a different train.  The source then executes
`train.state = self._TRAIN_CRASH_STATE`, but class `Model` defines no
attribute `_TRAIN_CRASH_STATE`, so the first detected overlap raises
`AttributeError` (embedded as `none`) before any state is written; with
no overlap the scan changes nothing. -/
def check_collisions (m : Model) : Option Model :=
  if (List.range m.trains.length).any (fun i =>
      match m.trains.get? i with
      | none => false
      | some tp => cross_overlap m.trains i tp.2) then
    none
  else some m

/-- The per-train body of the loop in `Model.tick`, over the list of
train identities: `_move_train_tick` on the train (including its
trailing `_update_sensor_states` call), writing the results back. -/
def tick_steps (m : Model) : List Nat → Option Model
  | [] => some m
  | i :: rest =>
    match m.trains.get? i with
    | none => none
    | some tp =>
      match move_train_tick m.matrix m.is_accelerating tp.1 tp.2 with
      | none => none
      | some tp2 =>
        tick_steps (update_sensor_states { m with trains := m.trains.set i tp2 }) rest

/-- `Model.tick`: move every train (each followed by acceleration and
sensor recomputation), then run collision detection once. -/
def tick (m : Model) : Option Model :=
  match tick_steps m (List.range m.trains.length) with
  | none => none
  | some m2 => check_collisions m2

/-- The body-initialization loop of `Model.__init__`: append
`_LENGTH - 1` copies of `positions[0]` (an empty starting list raises
`IndexError`). -/
def init_body : List (Int × Int) → Option (List (Int × Int))
  | [] => none
  | h :: rest => some ((h :: rest) ++ List.replicate (LENGTH - 1) h)

/-- The inner sensor-discovery loop of `Model.__init__` over one row at
height `y`, starting at column `x`. -/
def init_sensors_row (y : Nat) : Nat → List Cell → List ((Int × Int) × Bool)
  | _, [] => []
  | x, c :: rest =>
    if c.cell_type = CellType.SENSOR then
      (((x : Int), (y : Int)), false) :: init_sensors_row y (x + 1) rest
    else init_sensors_row y (x + 1) rest

/-- The sensor-discovery loops of `Model.__init__`: every sensor cell's
coordinate mapped to `False`, in row-major order. -/
def init_sensors : Nat → List (List Cell) → List ((Int × Int) × Bool)
  | _, [] => []
  | y, row :: rest => init_sensors_row y 0 row ++ init_sensors (y + 1) rest

/-- `Model.__init__`, generalized over the grid (the source builds it
with the missing `MapParser.build_map`) and the initial
`train_positions` dict (the source hardcodes one leftward train at
`(24, 1)`): extend every body to `_LENGTH` cells and discover the
sensors. -/
def Model.init (matrix : List (List Cell)) (acc : Bool)
    (trains0 : List (Train × List (Int × Int))) : Option Model :=
  match trains0.mapM (fun tp => (init_body tp.2).map (fun b => (tp.1, b))) with
  | none => none
  | some ts =>
    some { matrix := matrix, sensor_states := init_sensors 0 matrix,
           is_accelerating := acc, trains := ts }

/-! ### Basic lemmas about the embedding -/

/-- A nonnegative in-range Python subscript is the plain list lookup. -/
theorem pyGet_of_bounds {α : Type} (xs : List α) (i : Int) (h0 : 0 ≤ i)
    (hn : i.toNat < xs.length) :
    pyGet xs i = some (xs.get ⟨i.toNat, hn⟩) := by
  unfold pyGet
  have hlt : ¬ i < 0 := not_lt.mpr h0
  simp only [hlt, if_false]
  rw [dif_pos ⟨h0, hn⟩]

/-- Subscript 0 on a nonempty list returns the head. -/
theorem pyGet_zero {α : Type} (x : α) (xs : List α) :
    pyGet (x :: xs) 0 = some x := by
  have := pyGet_of_bounds (x :: xs) 0 (le_refl 0) (by simp)
  simpa using this

/-- If the Python subscript succeeds, the index was in `[-len, len)` and
the element is a member of the list. -/
theorem pyGet_mem {α : Type} {xs : List α} {i : Int} {a : α}
    (h : pyGet xs i = some a) : a ∈ xs := by
  unfold pyGet at h
  by_cases hneg : i < 0 <;> simp only [hneg, if_true, if_false] at h <;>
    (split at h
     · next hcond =>
         injection h with h
         subst h
         exact List.get_mem _ _ _
     · exact absurd h (by simp))

/-- The delta-to-heading table inverts the heading-to-delta table. -/
theorem coordinate_to_dir_inverse (d : Direction) :
    COORDINATE_TO_DIR (DIR_TO_COORDINATE d) = some d := by
  cases d <;> rfl

/-- Claim C6: after every `accelerate_tick` call (the spec's tick
boundary for speed) the train's speed lies in `[0, MAX_SPEED]`: the
method adds the acceleration increment or subtracts the deceleration
increment and always clamps the result into that interval. -/
theorem C6_speed_bounded (t : Train) :
    0 ≤ (accelerate_tick t).speed ∧ (accelerate_tick t).speed ≤ MAX_SPEED := by
  unfold accelerate_tick
  constructor
  · exact le_max_right _ _
  · simp only []
    refine max_le (min_le_right _ _) ?_
    unfold MAX_SPEED
    norm_num

/-! ### Concrete fixtures for claim C1 -/

/-- A 1×2 all-track test grid. -/
def C1_grid : List (List Cell) :=
  [[⟨CellType.TRACK, [Direction.RIGHT]⟩, ⟨CellType.TRACK, [Direction.RIGHT]⟩]]

/-- A fresh OK train heading right. -/
def C1_train : Train := ⟨TrainStates.OK, false, 0, Direction.RIGHT⟩

/-- Two distinct trains (indices 0 and 1) whose bodies share `(0, 0)`. -/
def C1_model : Model :=
  ⟨C1_grid, [], false, [(C1_train, [(0, 0)]), (C1_train, [(0, 0)])]⟩

/-- One train whose body overlaps only with itself. -/
def C1_self_model : Model :=
  ⟨C1_grid, [], false, [(C1_train, [(0, 0), (0, 0)])]⟩

/-- Claim C1, evaluated at the failing input: with two distinct trains
sharing coordinate `(0, 0)`, collision detection raises `AttributeError`
(class `Model` has no attribute `_TRAIN_CRASH_STATE`), embedded as
`none`, so neither train's status is ever set to `CRASHED` — the tick
aborts instead; with a single self-overlapping train the scan completes
without flagging anything, as the claim's self-overlap half states. -/
theorem C1_collision_detection_raises :
    check_collisions C1_model = none ∧ tick C1_model = none ∧
      check_collisions C1_self_model = some C1_self_model := by
  refine ⟨by decide, ?_, by decide⟩
  decide

/-! ### What a successful one-cell move can change -/

/-- A one-cell move that returns (does not raise) never touches the
train's speed or acceleration flag, never un-crashes it, and preserves
the body length. -/
theorem move_some_inv {matrix : List (List Cell)} {t t2 : Train}
    {ps ps2 : List (Int × Int)}
    (h : move_train_one_cell matrix t ps = some (t2, ps2)) :
    t2.speed = t.speed ∧ t2.is_accelerating = t.is_accelerating ∧
      (t.state = TrainStates.CRASHED → t2.state = TrainStates.CRASHED) ∧
      ps2.length = ps.length := by
  unfold move_train_one_cell at h
  split at h
  · exact absurd h (by simp)
  · split at h
    · exact absurd h (by simp)
    · split at h
      · exact absurd h (by simp)
      · split at h
        · exact absurd h (by simp)
        · simp only [Option.some.injEq, Prod.mk.injEq] at h
          obtain ⟨h1, h2⟩ := h
          subst h1
          subst h2
          exact ⟨rfl, rfl, fun _ => rfl, rfl⟩
        · split at h
          · exact absurd h (by simp)
          · simp only [push_first, Option.some.injEq, Prod.mk.injEq] at h
            obtain ⟨h1, h2⟩ := h
            subst h1
            subst h2
            refine ⟨rfl, rfl, fun hc => hc, ?_⟩
            simp

/-- `accelerate_tick` touches only the speed. -/
theorem accelerate_tick_state (t : Train) :
    (accelerate_tick t).state = t.state ∧ (accelerate_tick t).direction = t.direction := by
  exact ⟨rfl, rfl⟩

/-- Sensor recomputation touches neither the trains nor the grid. -/
theorem update_sensor_states_trains (m : Model) :
    (update_sensor_states m).trains = m.trains ∧
      (update_sensor_states m).matrix = m.matrix ∧
      (update_sensor_states m).is_accelerating = m.is_accelerating :=
  ⟨rfl, rfl, rfl⟩

/-! ### Lifting a per-train step relation through a whole tick -/

section TickRel

variable (R : Train × List (Int × Int) → Train × List (Int × Int) → Prop)

/-- The sub-move loop only chains one-cell moves. -/
theorem iterate_moves_rel
    (hrefl : ∀ a, R a a)
    (htrans : ∀ a b c, R a b → R b c → R a c)
    (hmove : ∀ mat t ps r, move_train_one_cell mat t ps = some r → R (t, ps) r)
    (mat : List (List Cell)) :
    ∀ (n : Nat) (t : Train) (ps : List (Int × Int)) (r : Train × List (Int × Int)),
      iterate_moves mat n t ps = some r → R (t, ps) r := by
  intro n
  induction n with
  | zero =>
    intro t ps r h
    unfold iterate_moves at h
    injection h with h
    subst h
    exact hrefl _
  | succ n ih =>
    intro t ps r h
    unfold iterate_moves at h
    cases hm : move_train_one_cell mat t ps with
    | none => rw [hm] at h; exact absurd h (by simp)
    | some tp2 =>
      rw [hm] at h
      obtain ⟨t2, ps2⟩ := tp2
      exact htrans _ _ _ (hmove _ _ _ _ hm) (ih _ _ _ h)

/-- One train's whole per-tick processing (sub-moves, flag copy,
acceleration) is a chain of `R`-steps. -/
theorem move_train_tick_rel
    (hrefl : ∀ a, R a a)
    (htrans : ∀ a b c, R a b → R b c → R a c)
    (hmove : ∀ mat t ps r, move_train_one_cell mat t ps = some r → R (t, ps) r)
    (hacc : ∀ (b : Bool) (t : Train) (ps : List (Int × Int)),
      R (t, ps) (accelerate_tick { t with is_accelerating := b }, ps))
    (mat : List (List Cell)) (acc : Bool) (t : Train) (ps : List (Int × Int))
    (tp2 : Train × List (Int × Int))
    (h : move_train_tick mat acc t ps = some tp2) : R (t, ps) tp2 := by
  unfold move_train_tick at h
  cases hm : iterate_moves mat (get_rounded_speed t).toNat t ps with
  | none => rw [hm] at h; exact absurd h (by simp)
  | some tp1 =>
    rw [hm] at h
    obtain ⟨t2, ps2⟩ := tp1
    injection h with h
    subst h
    exact htrans _ _ _ (iterate_moves_rel R hrefl htrans hmove mat _ _ _ _ hm) (hacc _ _ _)

/-- The per-train loop of `tick` preserves the train count and relates
every train of the result to the same-index train of the input by
`R`-steps. -/
theorem tick_steps_rel
    (hrefl : ∀ a, R a a)
    (htrans : ∀ a b c, R a b → R b c → R a c)
    (hmove : ∀ mat t ps r, move_train_one_cell mat t ps = some r → R (t, ps) r)
    (hacc : ∀ (b : Bool) (t : Train) (ps : List (Int × Int)),
      R (t, ps) (accelerate_tick { t with is_accelerating := b }, ps)) :
    ∀ (idxs : List Nat) (m m2 : Model), tick_steps m idxs = some m2 →
      m2.trains.length = m.trains.length ∧
      ∀ (i : Nat) (hi : i < m.trains.length) (hi2 : i < m2.trains.length),
        R (m.trains.get ⟨i, hi⟩) (m2.trains.get ⟨i, hi2⟩) := by
  intro idxs
  induction idxs with
  | nil =>
    intro m m2 h
    unfold tick_steps at h
    injection h with h
    subst h
    exact ⟨rfl, fun i hi hi2 => hrefl _⟩
  | cons i rest ih =>
    intro m m2 h
    unfold tick_steps at h
    cases hg : m.trains.get? i with
    | none => rw [hg] at h; exact absurd h (by simp)
    | some tp =>
      rw [hg] at h
      dsimp only at h
      cases hmv : move_train_tick m.matrix m.is_accelerating tp.1 tp.2 with
      | none => rw [hmv] at h; exact absurd h (by simp)
      | some tp2 =>
        rw [hmv] at h
        dsimp only at h
        obtain ⟨hlen, hrel⟩ := ih _ _ h
        have hlen2 : m2.trains.length = m.trains.length := by
          rw [hlen]
          show (m.trains.set i tp2).length = m.trains.length
          simp
        refine ⟨hlen2, fun j hj hj2 => ?_⟩
        have hj1 : j < (m.trains.set i tp2).length := by
          rw [List.length_set]; exact hj
        have hstep : R ((m.trains.set i tp2).get ⟨j, hj1⟩) (m2.trains.get ⟨j, hj2⟩) :=
          hrel j hj1 hj2
        by_cases hij : i = j
        · subst hij
          have hget : (m.trains.set i tp2).get ⟨i, hj1⟩ = tp2 := by
            simp [List.getElem_set]
          have htp : m.trains.get ⟨i, hj⟩ = tp := by
            have h5 := List.get?_eq_get hj
            rw [hg] at h5
            injection h5 with h5
            exact h5.symm
          rw [hget] at hstep
          rw [htp]
          exact htrans tp tp2 _
            (move_train_tick_rel R hrefl htrans hmove hacc _ _ _ _ _ hmv) hstep
        · have hget : (m.trains.set i tp2).get ⟨j, hj1⟩ = m.trains.get ⟨j, hj⟩ := by
            simp [List.getElem_set, hij]
          rw [hget] at hstep
          exact hstep

/-- Same lifting for a full `tick`: collision detection either raises or
returns the state unchanged, so the relation survives it. -/
theorem tick_rel
    (hrefl : ∀ a, R a a)
    (htrans : ∀ a b c, R a b → R b c → R a c)
    (hmove : ∀ mat t ps r, move_train_one_cell mat t ps = some r → R (t, ps) r)
    (hacc : ∀ (b : Bool) (t : Train) (ps : List (Int × Int)),
      R (t, ps) (accelerate_tick { t with is_accelerating := b }, ps))
    (m m2 : Model) (h : tick m = some m2) :
    m2.trains.length = m.trains.length ∧
    ∀ (i : Nat) (hi : i < m.trains.length) (hi2 : i < m2.trains.length),
      R (m.trains.get ⟨i, hi⟩) (m2.trains.get ⟨i, hi2⟩) := by
  unfold tick at h
  cases hs : tick_steps m (List.range m.trains.length) with
  | none => rw [hs] at h; exact absurd h (by simp)
  | some m1 =>
    rw [hs] at h
    dsimp only at h
    have hm2 : m2 = m1 := by
      unfold check_collisions at h
      split at h
      · exact absurd h (by simp)
      · injection h with h; exact h.symm
    subst hm2
    exact tick_steps_rel R hrefl htrans hmove hacc _ m m2 hs

end TickRel

/-- Claim C7: the OK → CRASHED transition is one-way: across a whole
tick (move attempts, acceleration, sensor recomputation, collision
detection) a train that was CRASHED is still CRASHED afterwards, and no
operation restores OK. -/
theorem C7_crash_is_one_way (m m2 : Model) (h : tick m = some m2) :
    m2.trains.length = m.trains.length ∧
    ∀ (i : Nat) (hi : i < m.trains.length) (hi2 : i < m2.trains.length),
      (m.trains.get ⟨i, hi⟩).1.state = TrainStates.CRASHED →
      (m2.trains.get ⟨i, hi2⟩).1.state = TrainStates.CRASHED := by
  refine tick_rel
    (fun a b => a.1.state = TrainStates.CRASHED → b.1.state = TrainStates.CRASHED)
    (fun a hc => hc) (fun a b c hab hbc hc => hbc (hab hc)) ?_ ?_ m m2 h
  · intro mat t ps r hmv
    obtain ⟨r1, r2⟩ := r
    exact (move_some_inv hmv).2.2.1
  · intro b t ps hc
    exact hc

/-- Claim C2: the body sequence always has the train's fixed length: the
constructor builds it as `LENGTH` copies of the starting head position,
a returning one-cell move preserves the length (front insertion plus
last-element removal), and hence a whole tick preserves every body's
length. -/
theorem C2_body_length_invariant :
    (∀ p : Int × Int, init_body [p] = some (List.replicate LENGTH p)) ∧
    (∀ (matrix : List (List Cell)) (t t2 : Train) (ps ps2 : List (Int × Int)),
      move_train_one_cell matrix t ps = some (t2, ps2) → ps2.length = ps.length) ∧
    (∀ (m m2 : Model), tick m = some m2 →
      ∀ (i : Nat) (hi : i < m.trains.length) (hi2 : i < m2.trains.length),
        (m2.trains.get ⟨i, hi2⟩).2.length = (m.trains.get ⟨i, hi⟩).2.length) := by
  refine ⟨fun p => rfl, ?_, ?_⟩
  · intro matrix t t2 ps ps2 h
    exact (move_some_inv h).2.2.2
  · intro m m2 h i hi hi2
    have hmove : ∀ (mat : List (List Cell)) (t : Train) (ps : List (Int × Int))
        (r : Train × List (Int × Int)), move_train_one_cell mat t ps = some r →
        r.2.length = ps.length := by
      intro mat t ps r hmv
      obtain ⟨r1, r2⟩ := r
      exact (move_some_inv hmv).2.2.2
    exact (tick_rel (fun a b => b.2.length = a.2.length)
      (fun a => rfl) (fun a b c hab hbc => hbc.trans hab)
      (fun mat t ps r hmv => hmove mat t ps r hmv)
      (fun b t ps => rfl) m m2 h).2 i hi hi2

/-! ### Characterizing the candidate loop -/

/-- A candidate heading whose target passes both checks of the loop in
`_move_train_one_cell`: in bounds, and on a traversable cell. -/
def valid_target (matrix : List (List Cell)) (width : Nat) (head : Int × Int)
    (d : Direction) : Prop :=
  0 ≤ head.1 + (DIR_TO_COORDINATE d).1 ∧
    head.1 + (DIR_TO_COORDINATE d).1 < (width : Int) ∧
    0 ≤ head.2 + (DIR_TO_COORDINATE d).2 ∧
    head.2 + (DIR_TO_COORDINATE d).2 < (matrix.length : Int) ∧
    ∃ cell, matrixCell matrix (head.1 + (DIR_TO_COORDINATE d).1)
        (head.2 + (DIR_TO_COORDINATE d).2) = some cell ∧
      cell.cell_type ∈ TRAVERSABLE

/-- The loop accepts the first candidate when it is valid. -/
theorem find_next_cons_of_valid {matrix : List (List Cell)} {width : Nat}
    {head : Int × Int} {d : Direction} (rest : List Direction)
    (hv : valid_target matrix width head d) :
    find_next matrix width head (d :: rest) =
      Except.ok (some (head.1 + (DIR_TO_COORDINATE d).1,
        head.2 + (DIR_TO_COORDINATE d).2)) := by
  obtain ⟨hx0, hx1, hy0, hy1, cell, hcell, htrav⟩ := hv
  have hcond : ¬ (head.1 + (DIR_TO_COORDINATE d).1 < 0 ∨
      (width : Int) ≤ head.1 + (DIR_TO_COORDINATE d).1 ∨
      head.2 + (DIR_TO_COORDINATE d).2 < 0 ∨
      (matrix.length : Int) ≤ head.2 + (DIR_TO_COORDINATE d).2) := by
    push_neg
    exact ⟨hx0, hx1, hy0, hy1⟩
  simp only [find_next]
  rw [if_neg hcond, hcell]
  dsimp only
  rw [if_pos htrav]

/-- Whatever the loop accepts came from some candidate heading in the
list, is the head plus that heading's delta, and was valid. -/
theorem find_next_ok_some_spec {matrix : List (List Cell)} {width : Nat}
    {head : Int × Int} {tgt : Int × Int} :
    ∀ dirs : List Direction,
      find_next matrix width head dirs = Except.ok (some tgt) →
      ∃ d ∈ dirs, tgt = (head.1 + (DIR_TO_COORDINATE d).1,
          head.2 + (DIR_TO_COORDINATE d).2) ∧
        valid_target matrix width head d := by
  intro dirs
  induction dirs with
  | nil => intro h; exact absurd h (by simp [find_next])
  | cons d rest ih =>
    intro h
    simp only [find_next] at h
    split at h
    · obtain ⟨d2, hd2, he⟩ := ih h
      exact ⟨d2, List.mem_cons_of_mem _ hd2, he⟩
    · next hcond =>
      push_neg at hcond
      obtain ⟨hx0, hx1, hy0, hy1⟩ := hcond
      cases hmc : matrixCell matrix (head.1 + (DIR_TO_COORDINATE d).1)
          (head.2 + (DIR_TO_COORDINATE d).2) with
      | none => rw [hmc] at h; exact absurd h (by simp)
      | some cell =>
        rw [hmc] at h
        dsimp only at h
        split at h
        · next htrav =>
          injection h with h
          injection h with h
          refine ⟨d, List.mem_cons_self _ _, h.symm, hx0, hx1, hy0, hy1, cell, hmc, htrav⟩
        · obtain ⟨d2, hd2, he⟩ := ih h
          exact ⟨d2, List.mem_cons_of_mem _ hd2, he⟩

/-- On a rectangular grid every in-bounds cell lookup succeeds. -/
theorem matrixCell_total (matrix : List (List Cell)) (width : Nat)
    (hrect : ∀ row ∈ matrix, row.length = width) (x y : Int)
    (hx0 : 0 ≤ x) (hx1 : x < (width : Int)) (hy0 : 0 ≤ y)
    (hy1 : y < (matrix.length : Int)) :
    ∃ c, matrixCell matrix x y = some c := by
  have hyn : y.toNat < matrix.length := by omega
  have hrow := pyGet_of_bounds matrix y hy0 hyn
  have hlen : (matrix.get ⟨y.toNat, hyn⟩).length = width :=
    hrect _ (List.get_mem _ _ _)
  have hxn : x.toNat < (matrix.get ⟨y.toNat, hyn⟩).length := by
    rw [hlen]; omega
  have hcell := pyGet_of_bounds _ x hx0 hxn
  refine ⟨(matrix.get ⟨y.toNat, hyn⟩).get ⟨x.toNat, hxn⟩, ?_⟩
  unfold matrixCell
  rw [hrow]
  simpa using hcell

/-- On a rectangular grid the candidate loop never raises: the bounds
filter protects every lookup it performs. -/
theorem find_next_total (matrix : List (List Cell)) (width : Nat)
    (hrect : ∀ row ∈ matrix, row.length = width) (head : Int × Int) :
    ∀ dirs : List Direction, ∃ r, find_next matrix width head dirs = Except.ok r := by
  intro dirs
  induction dirs with
  | nil => exact ⟨none, rfl⟩
  | cons d rest ih =>
    simp only [find_next]
    split
    · exact ih
    · next hcond =>
      push_neg at hcond
      obtain ⟨hx0, hx1, hy0, hy1⟩ := hcond
      obtain ⟨c, hc⟩ := matrixCell_total matrix width hrect _ _ hx0 hx1 hy0 hy1
      rw [hc]
      dsimp only
      split
      · exact ⟨some _, rfl⟩
      · exact ih

/-- If no candidate is valid, the loop on a rectangular grid exhausts
the list and reports no move. -/
theorem find_next_none_of_no_valid (matrix : List (List Cell)) (width : Nat)
    (hrect : ∀ row ∈ matrix, row.length = width) (head : Int × Int)
    (dirs : List Direction) (hnone : ∀ d ∈ dirs, ¬ valid_target matrix width head d) :
    find_next matrix width head dirs = Except.ok none := by
  obtain ⟨r, hr⟩ := find_next_total matrix width hrect head dirs
  cases r with
  | none => exact hr
  | some tgt =>
    obtain ⟨d, hd, _, hv⟩ := find_next_ok_some_spec dirs hr
    exact absurd hv (hnone d hd)

/-- Shared helper: with a readable head cell and no valid candidate, the
one-cell move returns the train crashed and everything else untouched. -/
theorem move_crash_of_no_valid {matrix : List (List Cell)} {t : Train}
    {ps : List (Int × Int)} {head : Int × Int} {cell : Cell} {row0 : List Cell}
    (h0 : pyGet ps 0 = some head)
    (h1 : matrixCell matrix head.1 head.2 = some cell)
    (h2 : pyGet matrix 0 = some row0)
    (hrect : ∀ row ∈ matrix, row.length = row0.length)
    (hnone : ∀ d ∈ candidate_dirs cell t, ¬ valid_target matrix row0.length head d) :
    move_train_one_cell matrix t ps = some ({ t with state := TrainStates.CRASHED }, ps) := by
  have hfind := find_next_none_of_no_valid matrix row0.length hrect head
    (candidate_dirs cell t) hnone
  simp only [move_train_one_cell, h0, h1, h2, hfind]

/-- Claim C4: a train whose head cell permits no traversable candidate
(no candidate heading leads to an in-bounds traversable cell) has its
state set to CRASHED by the one-cell move, with the body sequence and
the heading left completely unchanged. -/
theorem C4_dead_end_crashes {matrix : List (List Cell)} {t : Train}
    {ps : List (Int × Int)} {head : Int × Int} {cell : Cell} {row0 : List Cell}
    (h0 : pyGet ps 0 = some head)
    (h1 : matrixCell matrix head.1 head.2 = some cell)
    (h2 : pyGet matrix 0 = some row0)
    (hrect : ∀ row ∈ matrix, row.length = row0.length)
    (hnone : ∀ d ∈ candidate_dirs cell t, ¬ valid_target matrix row0.length head d) :
    ∃ t2, move_train_one_cell matrix t ps = some (t2, ps) ∧
      t2.state = TrainStates.CRASHED ∧ t2.direction = t.direction ∧
      t2.speed = t.speed ∧ t2.is_accelerating = t.is_accelerating := by
  exact ⟨{ t with state := TrainStates.CRASHED },
    move_crash_of_no_valid h0 h1 h2 hrect hnone, rfl, rfl, rfl, rfl⟩

/-- Claim C9: once a move attempt finds no valid candidate, the move
step has become idempotent: on the unchanged grid each further
invocation again finds no candidate (head and heading are unchanged),
re-sets CRASHED, and leaves the train exactly as it was, for any number
of repetitions. -/
theorem C9_failed_move_idempotent {matrix : List (List Cell)} {t : Train}
    {ps : List (Int × Int)} {head : Int × Int} {cell : Cell} {row0 : List Cell}
    (h0 : pyGet ps 0 = some head)
    (h1 : matrixCell matrix head.1 head.2 = some cell)
    (h2 : pyGet matrix 0 = some row0)
    (hrect : ∀ row ∈ matrix, row.length = row0.length)
    (hnone : ∀ d ∈ candidate_dirs cell t, ¬ valid_target matrix row0.length head d) :
    move_train_one_cell matrix t ps
        = some ({ t with state := TrainStates.CRASHED }, ps) ∧
      ∀ n : Nat, iterate_moves matrix n { t with state := TrainStates.CRASHED } ps
        = some ({ t with state := TrainStates.CRASHED }, ps) := by
  have hfirst := move_crash_of_no_valid h0 h1 h2 hrect hnone
  have hnone2 : ∀ d ∈ candidate_dirs cell { t with state := TrainStates.CRASHED },
      ¬ valid_target matrix row0.length head d := by
    intro d hd
    exact hnone d hd
  have hagain := move_crash_of_no_valid h0 h1 h2 hrect hnone2
  refine ⟨hfirst, ?_⟩
  intro n
  induction n with
  | zero => rfl
  | succ n ih =>
    unfold iterate_moves
    rw [hagain]
    exact ih

/-- Recomputing the heading from the accepted target's coordinate delta
recovers the candidate heading that produced the target. -/
theorem coordinate_to_dir_delta (head : Int × Int) (d : Direction) :
    COORDINATE_TO_DIR (head.1 + (DIR_TO_COORDINATE d).1 - head.1,
      head.2 + (DIR_TO_COORDINATE d).2 - head.2) = some d := by
  have h : (head.1 + (DIR_TO_COORDINATE d).1 - head.1,
      head.2 + (DIR_TO_COORDINATE d).2 - head.2) = DIR_TO_COORDINATE d := by
    simp
  rw [h, coordinate_to_dir_inverse]

/-- Claim C5: candidate headings are tried current-heading-first (so a
traversable straight continuation is always taken), and an accepted move
sets the heading via the inverse delta-to-heading mapping applied to
`target − head`. -/
theorem C5_straight_preference_and_inverse_heading :
    (∀ (matrix : List (List Cell)) (t : Train) (ps : List (Int × Int))
      (head : Int × Int) (cell : Cell) (row0 : List Cell),
      pyGet ps 0 = some head →
      matrixCell matrix head.1 head.2 = some cell →
      pyGet matrix 0 = some row0 →
      t.direction ∈ cell.allowed_turns →
      valid_target matrix row0.length head t.direction →
      move_train_one_cell matrix t ps = some (t, push_first ps
        (head.1 + (DIR_TO_COORDINATE t.direction).1,
         head.2 + (DIR_TO_COORDINATE t.direction).2))) ∧
    (∀ (matrix : List (List Cell)) (t : Train) (ps : List (Int × Int))
      (head : Int × Int) (cell : Cell) (row0 : List Cell) (tgt : Int × Int),
      pyGet ps 0 = some head →
      matrixCell matrix head.1 head.2 = some cell →
      pyGet matrix 0 = some row0 →
      find_next matrix row0.length head (candidate_dirs cell t) = Except.ok (some tgt) →
      ∃ d, COORDINATE_TO_DIR (tgt.1 - head.1, tgt.2 - head.2) = some d ∧
        move_train_one_cell matrix t ps = some ({ t with direction := d }, push_first ps tgt)) := by
  constructor
  · intro matrix t ps head cell row0 h0 h1 h2 hmem hv
    have hcd : candidate_dirs cell t = t.direction ::
        (ALLOWED_TURNS t.direction).filter (fun d => decide (d ∈ cell.allowed_turns)) := by
      unfold candidate_dirs
      rw [List.filter_cons_of_pos]
      exact decide_eq_true hmem
    have hfind : find_next matrix row0.length head (candidate_dirs cell t) =
        Except.ok (some (head.1 + (DIR_TO_COORDINATE t.direction).1,
          head.2 + (DIR_TO_COORDINATE t.direction).2)) := by
      rw [hcd]
      exact find_next_cons_of_valid _ hv
    simp only [move_train_one_cell, h0, h1, h2, hfind]
    rw [coordinate_to_dir_delta head t.direction]
  · intro matrix t ps head cell row0 tgt h0 h1 h2 hfind
    obtain ⟨d, hd, htgt, hv⟩ := find_next_ok_some_spec _ hfind
    have hinv : COORDINATE_TO_DIR (tgt.1 - head.1, tgt.2 - head.2) = some d := by
      rw [htgt]
      simpa using coordinate_to_dir_delta head d
    refine ⟨d, hinv, ?_⟩
    simp only [move_train_one_cell, h0, h1, h2, hfind, hinv]

/-- Claim C10: on a rectangular grid, a one-cell move from an in-bounds
nonempty body never raises — in particular the unguarded head lookup
`matrix[head.y][head.x]` is in range and does not wrap — and the
resulting body is again entirely in bounds (an accepted target passed
the bounds check; the tail is a sub-sequence of the old body). -/
theorem C10_bodies_stay_in_bounds (matrix : List (List Cell)) (t : Train)
    (ps : List (Int × Int)) (row0 : List Cell)
    (h2 : pyGet matrix 0 = some row0)
    (hrect : ∀ row ∈ matrix, row.length = row0.length)
    (hne : ps ≠ [])
    (hb : ∀ p ∈ ps, 0 ≤ p.1 ∧ p.1 < (row0.length : Int) ∧
      0 ≤ p.2 ∧ p.2 < (matrix.length : Int)) :
    ∃ t2 ps2, move_train_one_cell matrix t ps = some (t2, ps2) ∧
      ∀ p ∈ ps2, 0 ≤ p.1 ∧ p.1 < (row0.length : Int) ∧
        0 ≤ p.2 ∧ p.2 < (matrix.length : Int) := by
  obtain ⟨head, rest, rfl⟩ : ∃ h r, ps = h :: r := by
    cases ps with
    | nil => exact absurd rfl hne
    | cons h r => exact ⟨h, r, rfl⟩
  have h0 : pyGet (head :: rest) 0 = some head := pyGet_zero _ _
  obtain ⟨hx0, hx1, hy0, hy1⟩ := hb head (List.mem_cons_self _ _)
  obtain ⟨cell, h1⟩ := matrixCell_total matrix row0.length hrect head.1 head.2 hx0 hx1 hy0 hy1
  obtain ⟨r, hfind⟩ := find_next_total matrix row0.length hrect head (candidate_dirs cell t)
  cases r with
  | none =>
    refine ⟨{ t with state := TrainStates.CRASHED }, head :: rest, ?_, hb⟩
    simp only [move_train_one_cell, h0, h1, h2, hfind]
  | some tgt =>
    obtain ⟨d, hd, htgt, hv⟩ := find_next_ok_some_spec _ hfind
    have hinv : COORDINATE_TO_DIR (tgt.1 - head.1, tgt.2 - head.2) = some d := by
      rw [htgt]
      simpa using coordinate_to_dir_delta head d
    refine ⟨{ t with direction := d }, push_first (head :: rest) tgt, ?_, ?_⟩
    · simp only [move_train_one_cell, h0, h1, h2, hfind, hinv]
    · intro p hp
      have hp2 : p ∈ tgt :: head :: rest :=
        (List.dropLast_sublist (tgt :: head :: rest)).subset hp
      rcases List.mem_cons.mp hp2 with rfl | hp3
      · obtain ⟨hvx0, hvx1, hvy0, hvy1, _⟩ := hv
        rw [htgt]
        exact ⟨hvx0, hvx1, hvy0, hvy1⟩
      · exact hb p hp3

/-! ### Decidability of candidate validity, for concrete evaluation -/

/-- An option satisfies an anonymous-witness property exactly when
`Option.any` confirms it. -/
theorem exists_some_and_iff_any {α : Type} (o : Option α) (p : α → Prop)
    [DecidablePred p] :
    (∃ c, o = some c ∧ p c) ↔ (o.any fun c => decide (p c)) = true := by
  cases o <;> simp

instance {α : Type} (o : Option α) (p : α → Prop) [DecidablePred p] :
    Decidable (∃ c, o = some c ∧ p c) :=
  decidable_of_iff _ (exists_some_and_iff_any o p).symm

instance (matrix : List (List Cell)) (width : Nat) (head : Int × Int) (d : Direction) :
    Decidable (valid_target matrix width head d) := by
  unfold valid_target
  infer_instance

/-! ### Dictionary lemmas for the sensor registry -/

/-- A key present in the dict has a value. -/
theorem dictLookup_isSome_of_mem {d : List ((Int × Int) × Bool)} {k : Int × Int}
    (h : k ∈ dictKeys d) : ∃ b, dictLookup d k = some b := by
  induction d with
  | nil => simp [dictKeys] at h
  | cons e rest ih =>
    by_cases he : e.1 = k
    · exact ⟨e.2, by simp [dictLookup, he]⟩
    · have h2 : k ∈ dictKeys rest := by
        simp only [dictKeys, List.map_cons, List.mem_cons] at h
        rcases h with h | h
        · exact absurd h.symm he
        · exact h
      obtain ⟨b, hb⟩ := ih h2
      exact ⟨b, by simp [dictLookup, he, hb]⟩

/-- Resetting maps every stored value to `false`. -/
theorem dictLookup_reset (d : List ((Int × Int) × Bool)) (k : Int × Int) :
    dictLookup (reset_sensors d) k = (dictLookup d k).map (fun _ => false) := by
  induction d with
  | nil => rfl
  | cons e rest ih =>
    by_cases he : e.1 = k
    · simp [reset_sensors, dictLookup, he]
    · simp only [reset_sensors, List.map_cons, dictLookup, he, if_false]
      simpa [reset_sensors] using ih

/-- Resetting does not change the key set. -/
theorem dictKeys_reset (d : List ((Int × Int) × Bool)) :
    dictKeys (reset_sensors d) = dictKeys d := by
  simp [dictKeys, reset_sensors, List.map_map]

/-- Writing a key makes its value readable. -/
theorem dictLookup_dictSet_self (d : List ((Int × Int) × Bool)) (k : Int × Int)
    (v : Bool) : dictLookup (dictSet d k v) k = some v := by
  unfold dictSet
  split
  · next hany =>
    induction d with
    | nil => simp at hany
    | cons e rest ih =>
      by_cases he : e.1 = k
      · simp [dictLookup, he]
      · simp only [List.any_cons, Bool.or_eq_true, decide_eq_true_eq] at hany
        rcases hany with h1 | h2
        · exact absurd h1 he
        · simpa [dictLookup, he] using ih h2
  · induction d with
    | nil => simp [dictLookup]
    | cons e rest ih =>
      next hany =>
      simp only [List.any_cons, Bool.or_eq_true, decide_eq_true_eq, not_or] at hany
      have := ih (by simpa using hany.2)
      simpa [dictLookup, hany.1] using this

/-- Replacing the value under one key leaves every other key's value
alone (present-key branch of `dictSet`). -/
theorem dictLookup_map_other (d : List ((Int × Int) × Bool)) (k k2 : Int × Int)
    (v : Bool) (hne : k2 ≠ k) :
    dictLookup (d.map fun e => if e.1 = k then (k, v) else e) k2 = dictLookup d k2 := by
  induction d with
  | nil => rfl
  | cons e rest ih =>
    by_cases he : e.1 = k
    · have h1 : ¬ ((k, v).1 = k2) := fun h => hne h.symm
      have h2 : ¬ (e.1 = k2) := by
        rw [he]
        exact fun h => hne h.symm
      simp [dictLookup, he, h1, h2, ih]
    · by_cases he2 : e.1 = k2 <;> simp [dictLookup, he, he2, hne, ih]

/-- Appending a fresh key leaves every other key's value alone
(absent-key branch of `dictSet`). -/
theorem dictLookup_append_other (d : List ((Int × Int) × Bool)) (k k2 : Int × Int)
    (v : Bool) (hne : k2 ≠ k) :
    dictLookup (d ++ [(k, v)]) k2 = dictLookup d k2 := by
  induction d with
  | nil =>
    have h3 : ¬ (k = k2) := fun h => hne h.symm
    simp [dictLookup, h3]
  | cons e rest ih => by_cases he : e.1 = k2 <;> simp [dictLookup, he, ih]

/-- Writing one key leaves every other key's value alone. -/
theorem dictLookup_dictSet_other (d : List ((Int × Int) × Bool)) (k k2 : Int × Int)
    (v : Bool) (hne : k2 ≠ k) : dictLookup (dictSet d k v) k2 = dictLookup d k2 := by
  unfold dictSet
  split
  · exact dictLookup_map_other d k k2 v hne
  · exact dictLookup_append_other d k k2 v hne

/-- The condition `d.any (·.1 = k)` of `dictSet` is key membership. -/
theorem any_key_eq_iff_mem (d : List ((Int × Int) × Bool)) (k : Int × Int) :
    (d.any fun e => decide (e.1 = k)) = true ↔ k ∈ dictKeys d := by
  simp [dictKeys, List.any_eq_true, List.mem_map]

/-- Writing an existing key does not change the key set. -/
theorem dictKeys_dictSet_mem (d : List ((Int × Int) × Bool)) (k : Int × Int)
    (v : Bool) (hmem : k ∈ dictKeys d) : dictKeys (dictSet d k v) = dictKeys d := by
  unfold dictSet
  rw [if_pos ((any_key_eq_iff_mem d k).mpr hmem)]
  unfold dictKeys
  rw [List.map_map]
  refine List.map_congr_left ?_
  intro e he
  by_cases h : e.1 = k
  · simp [h]
  · simp [h]

/-- What one train's marking pass leaves under a key: `some true` if the
train occupies the key and the key lies on a sensor cell, otherwise
whatever was there before. -/
theorem mark_positions_lookup (matrix : List (List Cell))
    (ps : List (Int × Int)) :
    ∀ (d : List ((Int × Int) × Bool)) (k : Int × Int),
      dictLookup (mark_positions matrix d ps) k =
        if k ∈ ps ∧ (get_cells_sensor matrix k.1 k.2).isSome = true then some true
        else dictLookup d k := by
  induction ps with
  | nil =>
    intro d k
    simp [mark_positions]
  | cons p rest ih =>
    intro d k
    have hstep : mark_positions matrix d (p :: rest) = mark_positions matrix
        (if (get_cells_sensor matrix p.1 p.2).isSome then dictSet d p true else d) rest := rfl
    rw [hstep, ih]
    by_cases hk : k ∈ rest ∧ (get_cells_sensor matrix k.1 k.2).isSome = true
    · rw [if_pos hk, if_pos ⟨List.mem_cons_of_mem _ hk.1, hk.2⟩]
    · rw [if_neg hk]
      by_cases hpk : p = k
      · subst hpk
        by_cases hs : (get_cells_sensor matrix p.1 p.2).isSome = true
        · rw [if_pos hs, if_pos ⟨List.mem_cons_self _ _, hs⟩]
          exact dictLookup_dictSet_self d p true
        · rw [if_neg hs, if_neg (fun hc => hs hc.2)]
      · have hcond : ¬ (k ∈ p :: rest ∧ (get_cells_sensor matrix k.1 k.2).isSome = true) := by
          intro hc
          rcases List.mem_cons.mp hc.1 with h1 | h1
          · exact hpk h1.symm
          · exact hk ⟨h1, hc.2⟩
        rw [if_neg hcond]
        by_cases hs : (get_cells_sensor matrix p.1 p.2).isSome = true
        · rw [if_pos hs]
          exact dictLookup_dictSet_other d p k true (fun h => hpk h.symm)
        · rw [if_neg hs]

/-- What the whole recomputation leaves under a key: `some true` if any
train occupies the key and the key lies on a sensor cell, otherwise the
reset value. -/
theorem trains_fold_lookup (matrix : List (List Cell)) :
    ∀ (trains : List (Train × List (Int × Int))) (d : List ((Int × Int) × Bool))
      (k : Int × Int),
      dictLookup (trains.foldl (fun d tp => mark_positions matrix d tp.2) d) k =
        if (∃ tp ∈ trains, k ∈ tp.2) ∧ (get_cells_sensor matrix k.1 k.2).isSome = true
        then some true else dictLookup d k := by
  intro trains
  induction trains with
  | nil =>
    intro d k
    simp
  | cons tp rest ih =>
    intro d k
    rw [List.foldl_cons, ih, mark_positions_lookup]
    by_cases hk : (∃ tp2 ∈ rest, k ∈ tp2.2) ∧ (get_cells_sensor matrix k.1 k.2).isSome = true
    · rw [if_pos hk]
      refine (if_pos ⟨?_, hk.2⟩).symm
      obtain ⟨tp2, h1, h2⟩ := hk.1
      exact ⟨tp2, List.mem_cons_of_mem _ h1, h2⟩
    · rw [if_neg hk]
      by_cases hout : (∃ tp2 ∈ tp :: rest, k ∈ tp2.2) ∧
          (get_cells_sensor matrix k.1 k.2).isSome = true
      · rw [if_pos hout]
        obtain ⟨⟨tp2, h1, h2⟩, hs⟩ := hout
        rcases List.mem_cons.mp h1 with h3 | h3
        · subst h3
          rw [if_pos ⟨h2, hs⟩]
        · exact absurd ⟨⟨tp2, h3, h2⟩, hs⟩ hk
      · rw [if_neg hout]
        refine if_neg ?_
        intro hc
        exact hout ⟨⟨tp, List.mem_cons_self _ _, hc.1⟩, hc.2⟩

/-- Claim C3: after sensor recomputation, a sensor coordinate already
registered in the registry reads exactly the occupancy of that
coordinate: `true` iff some train body occupies it, `false` (never a
stale `true`) when no train does. -/
theorem C3_sensor_registry_soundness (m : Model) (x y : Int) (cell : Cell)
    (hcell : matrixCell m.matrix x y = some cell)
    (hsensor : cell.cell_type = CellType.SENSOR)
    (hkey : (x, y) ∈ dictKeys m.sensor_states) :
    dictLookup ((update_sensor_states m).sensor_states) (x, y) =
      some (m.trains.any fun tp => tp.2.any fun p => decide (p = (x, y))) := by
  have hs : (get_cells_sensor m.matrix x y).isSome = true := by
    unfold get_cells_sensor
    rw [hcell]
    dsimp only
    rw [if_pos hsensor]
    rfl
  have hfold := trains_fold_lookup m.matrix m.trains (reset_sensors m.sensor_states) (x, y)
  have hgoal : dictLookup ((update_sensor_states m).sensor_states) (x, y) =
      if (∃ tp ∈ m.trains, (x, y) ∈ tp.2) ∧
          (get_cells_sensor m.matrix x y).isSome = true
      then some true else dictLookup (reset_sensors m.sensor_states) (x, y) := hfold
  rw [hgoal]
  by_cases hocc : ∃ tp ∈ m.trains, (x, y) ∈ tp.2
  · rw [if_pos ⟨hocc, hs⟩]
    have hany : (m.trains.any fun tp => tp.2.any fun p => decide (p = (x, y))) = true := by
      simp only [List.any_eq_true, decide_eq_true_eq]
      obtain ⟨tp, h1, h2⟩ := hocc
      exact ⟨tp, h1, (x, y), h2, rfl⟩
    rw [hany]
  · rw [if_neg (fun hc => hocc hc.1)]
    have hany : (m.trains.any fun tp => tp.2.any fun p => decide (p = (x, y))) = false := by
      rw [Bool.eq_false_iff]
      intro hc
      simp only [List.any_eq_true, decide_eq_true_eq] at hc
      obtain ⟨tp, h1, p, h2, h3⟩ := hc
      exact hocc ⟨tp, h1, h3 ▸ h2⟩
    rw [hany, dictLookup_reset]
    obtain ⟨b, hb⟩ := dictLookup_isSome_of_mem hkey
    rw [hb]
    rfl

/-- A nonnegative Python subscript is an ordinary `get?`. -/
theorem pyGet_nonneg {α : Type} (xs : List α) (i : Int) (h0 : 0 ≤ i) :
    pyGet xs i = xs.get? i.toNat := by
  unfold pyGet
  have hlt : ¬ i < 0 := not_lt.mpr h0
  simp only [hlt, if_false]
  by_cases hn : i.toNat < xs.length
  · rw [dif_pos ⟨h0, hn⟩, List.get?_eq_get hn]
  · rw [dif_neg (by tauto), eq_comm, List.get?_eq_none]
    omega

/-- `dictKeys` distributes over append. -/
theorem dictKeys_append (a b : List ((Int × Int) × Bool)) :
    dictKeys (a ++ b) = dictKeys a ++ dictKeys b := by
  simp [dictKeys]

/-- Cast helper for the sensor-discovery indices. -/
theorem pair_cast_eq (a b y : Nat) (h : a = b) :
    (((a : Nat) : Int), ((y : Nat) : Int)) = (((b : Nat) : Int), ((y : Nat) : Int)) := by
  rw [h]

/-- Which keys the inner discovery loop produces: exactly the columns of
the row's sensor cells, shifted by the starting column. -/
theorem mem_keys_init_sensors_row (y : Nat) :
    ∀ (row : List Cell) (x0 : Nat) (k : Int × Int),
      k ∈ dictKeys (init_sensors_row y x0 row) ↔
        ∃ j c, row.get? j = some c ∧ c.cell_type = CellType.SENSOR ∧
          k = (((x0 + j : Nat) : Int), (y : Int)) := by
  intro row
  induction row with
  | nil =>
    intro x0 k
    simp [init_sensors_row, dictKeys]
  | cons c rest ih =>
    intro x0 k
    by_cases hc : c.cell_type = CellType.SENSOR
    · have hexp : dictKeys (init_sensors_row y x0 (c :: rest)) =
          ((x0 : Int), (y : Int)) :: dictKeys (init_sensors_row y (x0 + 1) rest) := by
        simp [init_sensors_row, hc, dictKeys]
      rw [hexp, List.mem_cons, ih (x0 + 1)]
      constructor
      · rintro (h1 | ⟨j, c2, hj, hs, hk⟩)
        · refine ⟨0, c, rfl, hc, ?_⟩
          simpa using h1
        · refine ⟨j + 1, c2, by simpa using hj, hs, ?_⟩
          exact hk.trans (pair_cast_eq _ _ _ (by omega))
      · rintro ⟨j, c2, hj, hs, hk⟩
        cases j with
        | zero =>
          left
          simp only [List.get?_cons_zero, Option.some.injEq] at hj
          rw [hk]
          simp
        | succ j =>
          right
          refine ⟨j, c2, by simpa using hj, hs, ?_⟩
          exact hk.trans (pair_cast_eq _ _ _ (by omega))
    · have hexp : init_sensors_row y x0 (c :: rest) = init_sensors_row y (x0 + 1) rest := by
        simp [init_sensors_row, hc]
      rw [hexp, ih (x0 + 1)]
      constructor
      · rintro ⟨j, c2, hj, hs, hk⟩
        refine ⟨j + 1, c2, by simpa using hj, hs, ?_⟩
        exact hk.trans (pair_cast_eq _ _ _ (by omega))
      · rintro ⟨j, c2, hj, hs, hk⟩
        cases j with
        | zero =>
          simp only [List.get?_cons_zero, Option.some.injEq] at hj
          subst hj
          exact absurd hs hc
        | succ j =>
          refine ⟨j, c2, by simpa using hj, hs, ?_⟩
          exact hk.trans (pair_cast_eq _ _ _ (by omega))

/-- Which keys construction discovers: exactly the coordinates of the
grid's sensor cells (row-major, rows counted from `y0`). -/
theorem mem_keys_init_sensors :
    ∀ (rows : List (List Cell)) (y0 : Nat) (k : Int × Int),
      k ∈ dictKeys (init_sensors y0 rows) ↔
        ∃ i row j c, rows.get? i = some row ∧ row.get? j = some c ∧
          c.cell_type = CellType.SENSOR ∧ k = ((j : Int), ((y0 + i : Nat) : Int)) := by
  intro rows
  induction rows with
  | nil =>
    intro y0 k
    simp [init_sensors, dictKeys]
  | cons row0 rest ih =>
    intro y0 k
    have hexp : init_sensors y0 (row0 :: rest) =
        init_sensors_row y0 0 row0 ++ init_sensors (y0 + 1) rest := rfl
    rw [hexp, dictKeys_append, List.mem_append, mem_keys_init_sensors_row, ih (y0 + 1)]
    constructor
    · rintro (⟨j, c, hj, hs, hk⟩ | ⟨i, row, j, c, hi, hj, hs, hk⟩)
      · refine ⟨0, row0, j, c, rfl, hj, hs, ?_⟩
        rw [hk]
        norm_num
      · refine ⟨i + 1, row, j, c, by simpa using hi, hj, hs, ?_⟩
        rw [hk]
        have h2 : y0 + 1 + i = y0 + (i + 1) := by omega
        rw [h2]
    · rintro ⟨i, row, j, c, hi, hj, hs, hk⟩
      cases i with
      | zero =>
        left
        simp only [List.get?_cons_zero, Option.some.injEq] at hi
        subst hi
        refine ⟨j, c, hj, hs, ?_⟩
        rw [hk]
        norm_num
      | succ i =>
        right
        refine ⟨i, row, j, c, by simpa using hi, hj, hs, ?_⟩
        rw [hk]
        have h2 : y0 + (i + 1) = y0 + 1 + i := by omega
        rw [h2]

/-- One marking pass adds no key when every sensor-cell position it
writes is already present. -/
theorem dictKeys_mark_positions (matrix : List (List Cell)) (ps : List (Int × Int)) :
    ∀ d : List ((Int × Int) × Bool),
      (∀ p ∈ ps, (get_cells_sensor matrix p.1 p.2).isSome = true → p ∈ dictKeys d) →
      dictKeys (mark_positions matrix d ps) = dictKeys d := by
  induction ps with
  | nil =>
    intro d _
    rfl
  | cons p rest ih =>
    intro d h
    have hstep : mark_positions matrix d (p :: rest) = mark_positions matrix
        (if (get_cells_sensor matrix p.1 p.2).isSome then dictSet d p true else d) rest := rfl
    rw [hstep]
    by_cases hs : (get_cells_sensor matrix p.1 p.2).isSome = true
    · have hkeys : dictKeys (dictSet d p true) = dictKeys d :=
        dictKeys_dictSet_mem d p true (h p (List.mem_cons_self _ _) hs)
      rw [if_pos hs, ih (dictSet d p true) ?_, hkeys]
      intro q hq hsq
      rw [hkeys]
      exact h q (List.mem_cons_of_mem _ hq) hsq
    · rw [if_neg hs]
      exact ih d (fun q hq hsq => h q (List.mem_cons_of_mem _ hq) hsq)

/-- The whole recomputation adds no key when every occupied sensor cell
is already registered. -/
theorem dictKeys_trains_fold (matrix : List (List Cell)) :
    ∀ (trains : List (Train × List (Int × Int))) (d : List ((Int × Int) × Bool)),
      (∀ tp ∈ trains, ∀ p ∈ tp.2,
        (get_cells_sensor matrix p.1 p.2).isSome = true → p ∈ dictKeys d) →
      dictKeys (trains.foldl (fun d tp => mark_positions matrix d tp.2) d) = dictKeys d := by
  intro trains
  induction trains with
  | nil =>
    intro d _
    rfl
  | cons tp rest ih =>
    intro d h
    rw [List.foldl_cons]
    have hkeys : dictKeys (mark_positions matrix d tp.2) = dictKeys d :=
      dictKeys_mark_positions matrix tp.2 d (h tp (List.mem_cons_self _ _))
    rw [ih (mark_positions matrix d tp.2) ?_, hkeys]
    intro tq htq p hp hsp
    rw [hkeys]
    exact h tq (List.mem_cons_of_mem _ htq) p hp hsp

/-- Claim C8: the sensor registry's key set is exactly the set of
sensor-cell coordinates discovered at construction, and recomputation
never adds or removes a key (it only rewrites values), provided every
occupied sensor cell is already registered — which the construction
guarantees for in-bounds bodies. -/
theorem C8_registry_domain_is_fixed :
    (∀ (matrix : List (List Cell)) (acc : Bool)
        (ts0 : List (Train × List (Int × Int))) (m : Model),
      Model.init matrix acc ts0 = some m →
      ∀ x y : Int, ((x, y) ∈ dictKeys m.sensor_states ↔
        0 ≤ x ∧ 0 ≤ y ∧ ∃ c, matrixCell matrix x y = some c ∧
          c.cell_type = CellType.SENSOR)) ∧
    (∀ m : Model,
      (∀ tp ∈ m.trains, ∀ p ∈ tp.2,
        (get_cells_sensor m.matrix p.1 p.2).isSome = true →
          p ∈ dictKeys m.sensor_states) →
      dictKeys ((update_sensor_states m).sensor_states) = dictKeys m.sensor_states) := by
  constructor
  · intro matrix acc ts0 m hinit x y
    have hss : m.sensor_states = init_sensors 0 matrix := by
      unfold Model.init at hinit
      split at hinit
      · exact absurd hinit (by simp)
      · injection hinit with hinit
        rw [← hinit]
    rw [hss, mem_keys_init_sensors]
    constructor
    · rintro ⟨i, row, j, c, hi, hj, hs, hk⟩
      injection hk with hk1 hk2
      subst hk1
      subst hk2
      refine ⟨by positivity, by positivity, c, ?_, hs⟩
      unfold matrixCell
      rw [pyGet_nonneg matrix _ (by positivity)]
      have h3 : ((0 + i : Nat) : Int).toNat = i := by omega
      rw [h3, hi]
      dsimp only [Option.bind]
      rw [pyGet_nonneg row _ (by positivity)]
      simpa using hj
    · rintro ⟨hx, hy, c, hc, hs⟩
      unfold matrixCell at hc
      cases hrow : pyGet matrix y with
      | none => rw [hrow] at hc; exact absurd hc (by simp)
      | some row =>
        rw [hrow] at hc
        dsimp only [Option.bind] at hc
        rw [pyGet_nonneg matrix y hy] at hrow
        rw [pyGet_nonneg row x hx] at hc
        refine ⟨y.toNat, row, x.toNat, c, hrow, hc, hs, ?_⟩
        have h1 : (x.toNat : Int) = x := Int.toNat_of_nonneg hx
        have h2 : ((0 + y.toNat : Nat) : Int) = y := by
          rw [Nat.zero_add]
          exact Int.toNat_of_nonneg hy
        rw [h1, h2]
  · intro m h
    have hres : dictKeys (reset_sensors m.sensor_states) = dictKeys m.sensor_states :=
      dictKeys_reset m.sensor_states
    have hfold := dictKeys_trains_fold m.matrix m.trains
      (reset_sensors m.sensor_states) ?_
    · exact hfold.trans hres
    · intro tp htp p hp hsp
      rw [hres]
      exact h tp htp p hp hsp

/-! ### Concrete witness fixtures -/

/-- A rightward track cell. -/
def Wcell : Cell := ⟨CellType.TRACK, [Direction.RIGHT]⟩

/-- A rightward sensor cell. -/
def Wsensor : Cell := ⟨CellType.SENSOR, [Direction.RIGHT]⟩

/-- A 1×2 all-track grid. -/
def Wgrid : List (List Cell) := [[Wcell, Wcell]]

/-- A 1×2 grid whose second cell is a sensor. -/
def W3_grid : List (List Cell) := [[Wcell, Wsensor]]

/-- A fresh OK train heading right at speed 0. -/
def Wtrain : Train := ⟨TrainStates.OK, false, 0, Direction.RIGHT⟩

/-- A train at speed 1, to make a tick actually move. -/
def W2_train : Train := ⟨TrainStates.OK, false, 1, Direction.RIGHT⟩

/-- A model before the tick used in the body-length witness. -/
def W2_model : Model := ⟨Wgrid, [], false, [(W2_train, [(0, 0), (0, 0)])]⟩

/-- The model `W2_model` becomes after one tick: the train moved one
cell right and decelerated to `1 - 0.1` (written unevaluated, as the
clamp produces it). -/
def W2_result : Model :=
  ⟨Wgrid, [], false,
    [(⟨TrainStates.OK, false,
        max (min ((1 : ℚ) - DEACCELERATION) MAX_SPEED) 0, Direction.RIGHT⟩,
      [(1, 0), (0, 0)])]⟩

/-- A sensor-grid model whose train occupies the sensor at `(1, 0)`. -/
def W3_model : Model :=
  ⟨W3_grid, [(((1 : Int), (0 : Int)), false)], false, [(Wtrain, [(1, 0), (0, 0)])]⟩

/-- An already-crashed stationary train. -/
def W7_train : Train := ⟨TrainStates.CRASHED, false, 0, Direction.RIGHT⟩

/-- A one-train model whose train is already crashed; a tick leaves it
in place. -/
def W7_model : Model := ⟨Wgrid, [], false, [(W7_train, [(0, 0)])]⟩

/-- The model `W7_model` becomes after one tick: still crashed, still at
`(0, 0)`, speed clamped back to the interval (written unevaluated). -/
def W7_result : Model :=
  ⟨Wgrid, [], false,
    [(⟨TrainStates.CRASHED, false,
        max (min ((0 : ℚ) - DEACCELERATION) MAX_SPEED) 0, Direction.RIGHT⟩,
      [(0, 0)])]⟩

/-- The model produced by `Model.init` on the sensor grid with one
one-cell starting body. -/
def W8_model : Model :=
  ⟨W3_grid, [(((1 : Int), (0 : Int)), false)], false,
    [(Wtrain, [(1, 0), (1, 0), (1, 0), (1, 0), (1, 0)])]⟩

/-- Witness for C2 at concrete inputs: an accepted move from `(0, 0)`
keeps the two-cell body at length two, and so does a whole tick. -/
theorem C2_witness :
    ([((1 : Int), (0 : Int)), ((0 : Int), (0 : Int))] : List (Int × Int)).length
        = ([((0 : Int), (0 : Int)), ((0 : Int), (0 : Int))] : List (Int × Int)).length ∧
      (W2_result.trains.get ⟨0, by decide⟩).2.length
        = (W2_model.trains.get ⟨0, by decide⟩).2.length :=
  ⟨C2_body_length_invariant.2.1 Wgrid Wtrain Wtrain
      [((0 : Int), (0 : Int)), ((0 : Int), (0 : Int))]
      [((1 : Int), (0 : Int)), ((0 : Int), (0 : Int))] (by decide),
    C2_body_length_invariant.2.2 W2_model W2_result rfl 0 (by decide) (by decide)⟩

/-- Witness for C3 at a concrete input: the occupied sensor at `(1, 0)`
reads `true` after recomputation. -/
theorem C3_witness :
    dictLookup ((update_sensor_states W3_model).sensor_states) ((1 : Int), (0 : Int))
      = some true := by
  have h := C3_sensor_registry_soundness W3_model 1 0 Wsensor
    (by decide) (by decide) (by decide)
  rw [h]
  decide

/-- Witness for C4 at a concrete input: the move from the dead end at
`(1, 0)` returns (crashing the train) instead of raising. -/
theorem C4_witness :
    (move_train_one_cell Wgrid Wtrain [((1 : Int), (0 : Int))]).isSome = true := by
  obtain ⟨t2, hmv, -, -, -, -⟩ := @C4_dead_end_crashes Wgrid Wtrain
    [((1 : Int), (0 : Int))] ((1 : Int), (0 : Int)) Wcell [Wcell, Wcell]
    (by decide) (by decide) (by decide) (by decide) (by decide)
  rw [hmv]
  rfl

/-- Witness for C5 at a concrete input: with the straight continuation
traversable, the train moves straight from `(0, 0)` to `(1, 0)` and
keeps its heading. -/
theorem C5_witness :
    move_train_one_cell Wgrid Wtrain [((0 : Int), (0 : Int)), ((0 : Int), (0 : Int))]
      = some (Wtrain, [((1 : Int), (0 : Int)), ((0 : Int), (0 : Int))]) := by
  have h := C5_straight_preference_and_inverse_heading.1 Wgrid Wtrain
    [((0 : Int), (0 : Int)), ((0 : Int), (0 : Int))] ((0 : Int), (0 : Int))
    Wcell [Wcell, Wcell] (by decide) (by decide) (by decide) (by decide) (by decide)
  rw [h]
  decide

/-- Witness for C7 at a concrete input: a crashed train is still crashed
after a full tick. -/
theorem C7_witness :
    (W7_result.trains.get ⟨0, by decide⟩).1.state = TrainStates.CRASHED :=
  (C7_crash_is_one_way W7_model W7_result rfl).2 0 (by decide) (by decide)
    (by decide)

/-- Witness for C8 at concrete inputs: the constructed registry of the
sensor grid contains the sensor coordinate `(1, 0)`, and recomputation
on `W3_model` preserves the key set. -/
theorem C8_witness :
    ((1 : Int), (0 : Int)) ∈ dictKeys W8_model.sensor_states ∧
      dictKeys ((update_sensor_states W3_model).sensor_states)
        = dictKeys W3_model.sensor_states :=
  ⟨(C8_registry_domain_is_fixed.1 W3_grid false [(Wtrain, [(1, 0)])] W8_model
      (by decide) 1 0).mpr ⟨by norm_num, le_refl 0, Wsensor, by decide, rfl⟩,
    C8_registry_domain_is_fixed.2 W3_model (by decide)⟩

/-- Witness for C9 at a concrete input: three further move attempts on
the crashed dead-end train all leave it exactly in place. -/
theorem C9_witness :
    iterate_moves Wgrid 3 ⟨TrainStates.CRASHED, false, 0, Direction.RIGHT⟩
        [((1 : Int), (0 : Int))]
      = some (⟨TrainStates.CRASHED, false, 0, Direction.RIGHT⟩,
          [((1 : Int), (0 : Int))]) :=
  (@C9_failed_move_idempotent Wgrid Wtrain [((1 : Int), (0 : Int))]
    ((1 : Int), (0 : Int)) Wcell [Wcell, Wcell]
    (by decide) (by decide) (by decide) (by decide) (by decide)).2 3

/-- Witness for C10 at a concrete input: the move from the in-bounds
body `[(0, 0)]` on the rectangular grid raises nothing. -/
theorem C10_witness :
    (move_train_one_cell Wgrid Wtrain [((0 : Int), (0 : Int))]).isSome = true := by
  obtain ⟨t2, ps2, hmv, -⟩ := C10_bodies_stay_in_bounds Wgrid Wtrain
    [((0 : Int), (0 : Int))] [Wcell, Wcell] (by decide) (by decide) (by decide) (by decide)
  rw [hmv]
  rfl

end TrainSim
